import Mathlib

/-!
# BookmarkAI core — shallow embedding and verification

This file embeds the rate-limiting, key-pool, budget, transcription-merge and
content-preflight logic of the BookmarkAI ML worker services in Lean 4 and
proves (or refutes) the specification claims about them.

Conventions of the embedding:
* Python `float` values are modelled as exact rationals (`ℚ`).  Every concrete
  computation appearing in a theorem below stays far from any binary rounding
  boundary, and the constants involved (`0.75`, `0.95`, `0.8`, quarters and
  eighths) are exactly representable, so the rational model agrees with the
  IEEE-754 evaluation on all inputs used here.
* Python `int(x)` (truncation toward zero) is `pyInt`.
* Redis sorted sets are association lists member ↦ score; the Redis iteration
  order of `ZREVRANGE` (score descending, ties by member, reversed lexicographic)
  is produced by sorting.
* Mutable dictionaries keyed by strings are modelled as functions `String → α`
  updated pointwise.
* Logging and metrics calls are no-ops and are dropped.
-/

namespace BookmarkAI

/-! ## Python primitives

Arithmetic on rationals goes through the wrappers `qAdd`, `qSub`, `qMul`,
`qDiv`, `qAbs`, `qFloor`, `qCeil` below.  They are proved equal to the
corresponding field operations on `ℚ` (see `qAdd_eq` etc. among the theorems),
and unlike the library operations they are kernel-computable, so concrete
runs of the embedded code can be settled by `decide`. -/

/-- Addition on `ℚ` (kernel-computable; equals `+` by `qAdd_eq`). -/
def qAdd (a b : ℚ) : ℚ :=
  mkRat (a.num * b.den + b.num * a.den) (a.den * b.den)

/-- Multiplication on `ℚ` (kernel-computable; equals `*` by `qMul_eq`). -/
def qMul (a b : ℚ) : ℚ :=
  mkRat (a.num * b.num) (a.den * b.den)

/-- Division on `ℚ` (kernel-computable; equals `/` by `qDiv_eq`). -/
def qDiv (a b : ℚ) : ℚ :=
  if 0 ≤ b.num then mkRat (a.num * b.den) (a.den * b.num).natAbs
  else mkRat (-(a.num * b.den)) (a.den * b.num).natAbs

/-- Subtraction on `ℚ` (kernel-computable; equals `-` by `qSub_eq`). -/
def qSub (a b : ℚ) : ℚ :=
  qAdd a (-b)

/-- Absolute value on `ℚ` (kernel-computable; equals `|·|` by `qAbs_eq`). -/
def qAbs (a : ℚ) : ℚ :=
  if a.num < 0 then -a else a

/-- Floor of a rational (kernel-computable; equals `⌊·⌋` by `qFloor_eq`). -/
def qFloor (q : ℚ) : Int :=
  q.num.fdiv q.den

/-- Ceiling of a rational (kernel-computable; equals `⌈·⌉` by `qCeil_eq`). -/
def qCeil (q : ℚ) : Int :=
  -((-q.num).fdiv q.den)

/-- Python `int(x)` for a rational: truncation toward zero. -/
def pyInt (q : ℚ) : Int :=
  q.num.tdiv q.den

/-- Python strings handled character-wise (`len`, slicing, `split`, `rfind`). -/
abbrev PyStr := List Char

/-- The whitespace characters recognised by Python `str.split()` (the ones that
occur in the texts handled here). -/
def isPyWhitespace (c : Char) : Bool :=
  c = ' ' || c = '\t' || c = '\n' || c = '\r'

/-- Python `text.split()`: split on runs of whitespace, dropping empty parts. -/
def pyWords (text : PyStr) : List PyStr :=
  (text.splitOnP isPyWhitespace).filter (fun w => !w.isEmpty)

/-- Python `text.rfind(c)`: index of the last occurrence of `c`, `-1` if absent. -/
def pyRfind (text : PyStr) (c : Char) : Int :=
  match text.reverse.findIdx? (fun x => x = c) with
  | some i => (text.length : Int) - 1 - (i : Int)
  | none => -1

/-- Pointwise update of a string-keyed dictionary. -/
def fupd {α : Type} (f : String → α) (k : String) (v : α) : String → α :=
  fun x => if x = k then v else f x

/-! ## Redis model (the primitives used by the rate limiter) -/

/-- A Redis sorted set: an association list of `(member, score)` pairs with
distinct members, in insertion order. -/
abbrev ZSet := List (String × Int)

/-- `ZADD key score member`: overwrite the member's score or append it. -/
def zadd (z : ZSet) (member : String) (score : Int) : ZSet :=
  if z.any (fun e => e.1 = member) then
    z.map (fun e => if e.1 = member then (member, score) else e)
  else
    z ++ [(member, score)]

/-- The `ZREVRANGE` iteration order: score descending, ties broken by member
(reversed lexicographic). -/
def zRevRel (a b : String × Int) : Prop :=
  b.2 < a.2 ∨ (a.2 = b.2 ∧ b.1 ≤ a.1)

instance : DecidableRel zRevRel := fun a b => by
  unfold zRevRel; exact inferInstance

instance : IsTotal (String × Int) zRevRel where
  total a b := by
    rcases lt_trichotomy a.2 b.2 with h | h | h
    · exact Or.inr (Or.inl h)
    · rcases le_total a.1 b.1 with h' | h'
      · exact Or.inr (Or.inr ⟨h.symm, h'⟩)
      · exact Or.inl (Or.inr ⟨h, h'⟩)
    · exact Or.inl (Or.inl h)

instance : IsTrans (String × Int) zRevRel where
  trans a b c hab hbc := by
    rcases hab with h₁ | ⟨he₁, hm₁⟩
    · rcases hbc with h₂ | ⟨he₂, _⟩
      · exact Or.inl (h₂.trans h₁)
      · exact Or.inl (he₂ ▸ h₁)
    · rcases hbc with h₂ | ⟨he₂, hm₂⟩
      · exact Or.inl (he₁ ▸ h₂)
      · exact Or.inr ⟨he₁.trans he₂, hm₂.trans hm₁⟩

/-- The elements of a sorted set in `ZREVRANGE` order. -/
def zrevList (z : ZSet) : ZSet :=
  z.insertionSort zRevRel

/-- `ZREVRANGE key start stop` (members only); negative indices count from the
end, as in Redis. -/
def zrevrange (z : ZSet) (start stop : Int) : List String :=
  let l := zrevList z
  let n : Int := l.length
  let start' := if start < 0 then start + n else start
  let stop' := if stop < 0 then stop + n else stop
  ((l.drop start'.toNat).take (stop' - start' + 1).toNat).map Prod.fst

/-- `ZREM key members`. -/
def zrem (z : ZSet) (members : List String) : ZSet :=
  z.filter (fun e => !members.contains e.1)

/-- `INCRBYFLOAT key delta`: a missing key is created at `0`. -/
def incrbyfloat (v : Option ℚ) (delta : ℚ) : Option ℚ :=
  some (qAdd (v.getD 0) delta)

/-- The Redis state visible to the rate limiter: the sliding-window sorted sets
and the token-bucket value keys, indexed by their full Redis key strings. -/
structure Store where
  sw : String → ZSet
  tbTokens : String → Option ℚ
  tbLast : String → Option Int

def swKey (service identifier : String) : String :=
  "rl:sw:" ++ service ++ ":" ++ identifier

def tbTokensKey (service identifier : String) : String :=
  "rl:tb:" ++ service ++ ":" ++ identifier ++ ":tokens"

def tbLastKey (service identifier : String) : String :=
  "rl:tb:" ++ service ++ ":" ++ identifier ++ ":last"

/-! ## Rate limit configuration (`rate_limit_config.py`) -/

inductive Algorithm where
  | slidingWindow
  | tokenBucket
deriving DecidableEq, Repr

/-- One entry of a service's `limits` list (`RateLimitWindow` dataclass); the
loader fills the fields relevant to the service's algorithm, the others stay
`none`. -/
structure RateLimitWindow where
  requests : Option Nat := none
  window : Option Nat := none
  capacity : Option ℚ := none
  refillRate : Option ℚ := none
  burst : Option Nat := none
deriving DecidableEq, Repr

/-- Per-service configuration (`RateLimitConfig` dataclass; the backoff
sub-config is not used by any operation embedded here and is omitted).
A Python `cost_mapping` of `None` or `{}` is the empty list. -/
structure RateLimitConfig where
  service : String
  algorithm : Algorithm
  limits : List RateLimitWindow
  costMapping : List (String × ℚ) := []
  ttl : Nat := 3600
deriving DecidableEq, Repr

/-! ## The Lua store scripts

The two Lua scripts (`scripts/sliding_window.lua`, `scripts/token_bucket.lua`)
are loaded from files that are not part of the sources here; only their callers
are.  They are therefore modelled from the spec (§4.B). -/

/-- The 4-tuple a store script returns: `[allowed, count_or_tokens, limit,
retry_after]` (the Python caller converts each entry with `int(...)`). -/
structure ScriptReply where
  allowed : Bool
  val1 : Int
  val2 : Int
  retryAfter : Int
deriving DecidableEq, Repr

/-- Modelled from the spec: `scripts/sliding_window.lua` is absent from the
sources.  Spec §4.B: prune entries older than `t_ms - w*1000`, count the rest;
if `count + c ≤ N` insert `c` entries scored `t_ms` and allow, else deny with
`retry_after = ceil((oldest_score - (t_ms - w*1000))/1000)`.  Inserted members
are disambiguated by an index suffix; pruning persists on denial. -/
def slidingWindowScript (z : ZSet) (tms : Int) (w : Nat) (n : Nat)
    (identifier : String) (cost : ℚ) : ScriptReply × ZSet :=
  let cutoff : Int := tms - (w : Int) * 1000
  let kept := z.filter (fun e => decide (cutoff ≤ e.2))
  let count := kept.length
  if qAdd (count : ℚ) cost ≤ (n : ℚ) then
    let fresh := (List.range (Int.toNat (qCeil cost))).map
      (fun i => (identifier ++ ":" ++ toString tms ++ ":" ++ toString i, tms))
    (⟨true, pyInt (qAdd (count : ℚ) cost), (n : Int), 0⟩, kept ++ fresh)
  else
    let retry : Int :=
      match (kept.map Prod.snd).min? with
      | some oldest => qCeil (qDiv ((oldest - cutoff : Int) : ℚ) 1000)
      | none => 0
    (⟨false, (count : Int), (n : Int), retry⟩, kept)

/-- Modelled from the spec: `scripts/token_bucket.lua` is absent from the
sources.  Spec §4.B: `elapsed = max(0, t_ms - last)`, refill
`tokens = min(C, tokens + elapsed/1000 * r)`; allow and deduct iff
`tokens ≥ c`, else deny with `retry_after = ceil((c - tokens)/r)` and deduct
nothing.  A fresh bucket starts full (`tokens = C`, `last = t_ms`); the refill
is persisted either way.  Returns the reply plus the new values of the two
keys. -/
def tokenBucketScript (tokens0 : Option ℚ) (last0 : Option Int) (tms : Int)
    (cap : ℚ) (rate : ℚ) (cost : ℚ) : ScriptReply × ℚ × Int :=
  let last := last0.getD tms
  let elapsed : Int := max 0 (tms - last)
  let tokens := min cap (qAdd (tokens0.getD cap) (qMul (qDiv (elapsed : ℚ) 1000) rate))
  if cost ≤ tokens then
    (⟨true, pyInt (qSub tokens cost), pyInt cap, 0⟩, qSub tokens cost, tms)
  else
    let retry : Int := if rate ≤ 0 then 0 else qCeil (qDiv (qSub cost tokens) rate)
    (⟨false, pyInt tokens, pyInt cap, retry⟩, tokens, tms)

/-! ## Distributed rate limiter (`distributed_rate_limiter.py`) -/

/-- `RateLimitResult` (`distributed_rate_limiter.py:22`). -/
structure RateLimitResult where
  allowed : Bool
  remaining : Int
  limit : Int
  retryAfter : Int
  resetAt : Int
deriving DecidableEq, Repr

/-- The `RateLimitResult.__init__` computation; `nowS` is `int(time.time())`,
derived below from the same millisecond clock the checks use. -/
def mkRateLimitResult (nowS : Int) (allowed : Bool)
    (remaining limit retryAfter : Int) : RateLimitResult :=
  { allowed := allowed, remaining := remaining, limit := limit,
    retryAfter := retryAfter,
    resetAt := if 0 < retryAfter then nowS + retryAfter else 0 }

/-- The payload of a raised `RateLimitError` (`exceptions.py`); `reset_at`
defaults to `None` when the raiser does not pass it. -/
structure RateLimitErrorInfo where
  service : String
  retryAfter : Int
  resetAt : Option Int
deriving DecidableEq, Repr

/-- `DistributedRateLimiter._check_sliding_window`. -/
def checkSlidingWindow (service identifier : String) (lc : RateLimitWindow)
    (cost : ℚ) (tms : Int) (st : Store) : RateLimitResult × Store :=
  let key := swKey service identifier
  let (r, z') := slidingWindowScript (st.sw key) tms (lc.window.getD 0)
    (lc.requests.getD 0) identifier cost
  let remaining := if r.allowed then max 0 (r.val2 - r.val1) else 0
  (mkRateLimitResult (tms / 1000) r.allowed remaining r.val2 r.retryAfter,
    { st with sw := fupd st.sw key z' })

/-- `DistributedRateLimiter._check_token_bucket`. -/
def checkTokenBucket (service identifier : String) (lc : RateLimitWindow)
    (cost : ℚ) (ttl : Nat) (tms : Int) (st : Store) : RateLimitResult × Store :=
  let _ := ttl
  let tKey := tbTokensKey service identifier
  let lKey := tbLastKey service identifier
  let (r, tokens', last') := tokenBucketScript (st.tbTokens tKey)
    (st.tbLast lKey) tms (lc.capacity.getD 0) (lc.refillRate.getD 0) cost
  (mkRateLimitResult (tms / 1000) r.allowed r.val1 r.val2 r.retryAfter,
    { st with tbTokens := fupd st.tbTokens tKey (some tokens'),
              tbLast := fupd st.tbLast lKey (some last') })

/-- `DistributedRateLimiter._check_single_limit`. -/
def checkSingleLimit (service identifier : String) (cfg : RateLimitConfig)
    (lc : RateLimitWindow) (cost : ℚ) (tms : Int) (st : Store) :
    RateLimitResult × Store :=
  match cfg.algorithm with
  | .slidingWindow => checkSlidingWindow service identifier lc cost tms st
  | .tokenBucket => checkTokenBucket service identifier lc cost cfg.ttl tms st

/-- What a `check_limit` call does from the caller's point of view: return a
result (possibly `None` when the config's limits list is empty), raise
`RateLimitError`, or raise `RateLimiterUnavailableError`. -/
inductive CheckOutcome where
  | ok (result : Option RateLimitResult)
  | rateLimited (e : RateLimitErrorInfo)
  | unavailable
deriving DecidableEq, Repr

/-- The `for limit_config in config.limits` loop of `check_limit`: limits are
checked sequentially, the first denial raises immediately (carrying that
limit's `retry_after` and `reset_at`), and consumption by earlier allowed
limits persists in the store. -/
def checkLimitLoop (service identifier : String) (cfg : RateLimitConfig)
    (cost : ℚ) (tms : Int) :
    List RateLimitWindow → Store → Option RateLimitResult →
    CheckOutcome × Store
  | [], st, acc => (.ok acc, st)
  | lc :: rest, st, _ =>
    if (checkSingleLimit service identifier cfg lc cost tms st).1.allowed then
      checkLimitLoop service identifier cfg cost tms rest
        (checkSingleLimit service identifier cfg lc cost tms st).2
        (some (checkSingleLimit service identifier cfg lc cost tms st).1)
    else
      (.rateLimited ⟨service,
          (checkSingleLimit service identifier cfg lc cost tms st).1.retryAfter,
          some (checkSingleLimit service identifier cfg lc cost tms st).1.resetAt⟩,
        (checkSingleLimit service identifier cfg lc cost tms st).2)

/-- `DistributedRateLimiter.check_limit`.  `cfgs` is the injected config
loader's lookup; `circuitOpen` is the circuit-breaker state at call time (its
time-based bookkeeping is process-local and outside these claims); Redis
itself never fails in this model, so the store-error path that opens the
breaker is not reachable here. -/
def check_limit (cfgs : String → Option RateLimitConfig) (circuitOpen : Bool)
    (service identifier : String) (cost : ℚ) (tms : Int) (st : Store) :
    CheckOutcome × Store :=
  if circuitOpen then (.unavailable, st)
  else
    match cfgs service with
    | none => (.ok (some (mkRateLimitResult (tms / 1000) true 999 999 0)), st)
    | some cfg => checkLimitLoop service identifier cfg cost tms cfg.limits st none

/-- The state after a prefix of a config's limits has been checked with every
check allowed (`none` if one of them denies): used to reason about where in
its limits list a `check_limit` call stops. -/
def passLimits (service identifier : String) (cfg : RateLimitConfig)
    (cost : ℚ) (tms : Int) : List RateLimitWindow → Store → Option Store
  | [], st => some st
  | lc :: rest, st =>
    if (checkSingleLimit service identifier cfg lc cost tms st).1.allowed then
      passLimits service identifier cfg cost tms rest
        (checkSingleLimit service identifier cfg lc cost tms st).2
    else none

/-- `DistributedRateLimiter.record_usage`: sliding window adds one entry (any
positive cost) or removes the `int(abs(cost))` most recent entries (cost ≤ 0);
token bucket adjusts the tokens key by `-cost`. -/
def record_usage (cfgs : String → Option RateLimitConfig)
    (service identifier : String) (cost : ℚ) (tms : Int) (st : Store) : Store :=
  match cfgs service with
  | none => st
  | some cfg =>
    match cfg.algorithm with
    | .slidingWindow =>
      let key := swKey service identifier
      if 0 < cost then
        let z' := zadd (st.sw key) (identifier ++ ":" ++ toString tms) tms
        { st with sw := fupd st.sw key z' }
      else
        let entries := zrevrange (st.sw key) 0 (pyInt (qAbs cost) - 1)
        if entries.isEmpty then st
        else { st with sw := fupd st.sw key (zrem (st.sw key) entries) }
    | .tokenBucket =>
      let key := tbTokensKey service identifier
      let v' := incrbyfloat (st.tbTokens key) (-cost)
      { st with tbTokens := fupd st.tbTokens key v' }

/-- `DistributedRateLimiter.rollback`: `record_usage` with the negated absolute
cost. -/
def rollback (cfgs : String → Option RateLimitConfig)
    (service identifier : String) (cost : ℚ) (tms : Int) (st : Store) : Store :=
  record_usage cfgs service identifier (-(qAbs cost)) tms st

/-! ## LLM dispatcher dual-limit check (`llm-service/rate_limited_client.py`) -/

/-- What `RateLimitedLLMClient._check_dual_limits` does: return normally, let a
`RateLimitError` propagate, let `RateLimiterUnavailableError` propagate, or hit
the `AttributeError` Python would raise on `None.allowed` (only reachable with
an empty limits list). -/
inductive DualOutcome where
  | ok
  | rateLimitError (e : RateLimitErrorInfo)
  | unavailable
  | pyNoneError
deriving DecidableEq, Repr

/-- `RateLimitedLLMClient._get_model_cost_multiplier`: the `openai` config's
`cost_mapping` when present and non-empty, else the hard-coded defaults;
unknown model ↦ `1.0`. -/
def modelCostMultiplier (cfgs : String → Option RateLimitConfig)
    (model : String) : ℚ :=
  let defaults : List (String × ℚ) :=
    [("gpt-4", 10), ("gpt-4-turbo", 10), ("gpt-3.5-turbo", 1),
     ("gpt-4o", 5), ("gpt-4o-mini", qDiv 1 2)]
  match cfgs "openai" with
  | some cfg =>
    if cfg.costMapping.isEmpty then (defaults.lookup model).getD 1
    else (cfg.costMapping.lookup model).getD 1
  | none => (defaults.lookup model).getD 1

/-- `RateLimitedLLMClient._check_dual_limits`: request check on service
`openai` with cost 1, then token check on service `openai_tokens` with
`estimated_tokens × cost_multiplier(model)`.  The `if not result.allowed`
branches reproduce the source, including the `record_usage(cost=-1.0)`
compensation before the second raise. -/
def checkDualLimits (cfgs : String → Option RateLimitConfig)
    (circuitOpen : Bool) (model : String) (estimatedTokens : ℚ)
    (identifier : String) (tms : Int) (st : Store) : DualOutcome × Store :=
  let (o1, st1) := check_limit cfgs circuitOpen "openai" identifier 1 tms st
  match o1 with
  | .unavailable => (.unavailable, st1)
  | .rateLimited e => (.rateLimitError e, st1)
  | .ok none => (.pyNoneError, st1)
  | .ok (some r1) =>
    if r1.allowed = false then
      (.rateLimitError ⟨"openai", r1.retryAfter, none⟩, st1)
    else
      let tokenCost := qMul estimatedTokens (modelCostMultiplier cfgs model)
      let (o2, st2) :=
        check_limit cfgs circuitOpen "openai_tokens" identifier tokenCost tms st1
      match o2 with
      | .unavailable => (.unavailable, st2)
      | .rateLimited e => (.rateLimitError e, st2)
      | .ok none => (.pyNoneError, st2)
      | .ok (some r2) =>
        if r2.allowed = false then
          let st3 := record_usage cfgs "openai" identifier (-1) tms st2
          (.rateLimitError ⟨"openai", r2.retryAfter, none⟩, st3)
        else (.ok, st2)

/-! ## API key pools

Two distinct pools exist: `APIKeyPool` in the LLM service (dict-based, selects
the least-recently-used active key) and the `APIKeyInfo` list inside
`RateLimitedWhisperClient` (round-robin cursor). -/

inductive APIKeyStatus where
  | active
  | rateLimited
  | exhausted
  | error
deriving DecidableEq, Repr

/-- `llm_service.rate_limited_client.APIKeyPool`: the key list plus the four
per-key dicts.  Clock values (`time.time()`) are rationals. -/
structure APIKeyPool where
  keys : List String
  keyStatus : String → APIKeyStatus
  keyLastUsed : String → ℚ
  keyErrorCount : String → Nat
  keyRateLimitedUntil : String → ℚ

/-- One iteration of the recovery loop in `APIKeyPool.get_next_key`: a
rate-limited key whose cooldown has elapsed becomes active with its error
count reset. -/
def recoverKey (p : APIKeyPool) (now : ℚ) (k : String) : APIKeyPool :=
  if p.keyStatus k = .rateLimited ∧ p.keyRateLimitedUntil k < now then
    { p with keyStatus := fupd p.keyStatus k .active,
             keyErrorCount := fupd p.keyErrorCount k 0 }
  else p

/-- The `for key in self.keys` loop of `get_next_key`: recover each key in
order and collect the keys that are active right after their own recovery
step. -/
def scanKeys (now : ℚ) : List String → APIKeyPool → APIKeyPool × List String
  | [], p => (p, [])
  | k :: ks, p =>
    let p' := recoverKey p now k
    let rest := scanKeys now ks p'
    if p'.keyStatus k = .active then (rest.1, k :: rest.2)
    else (rest.1, rest.2)

/-- The LRU order used by `active_keys.sort(key=lambda k: self.key_last_used[k])`. -/
def lruRel (lastUsed : String → ℚ) (a b : String) : Prop :=
  lastUsed a ≤ lastUsed b

instance (lastUsed : String → ℚ) : DecidableRel (lruRel lastUsed) :=
  fun a b => by unfold lruRel; exact inferInstance

instance (lastUsed : String → ℚ) : IsTotal String (lruRel lastUsed) where
  total a b := le_total (lastUsed a) (lastUsed b)

instance (lastUsed : String → ℚ) : IsTrans String (lruRel lastUsed) where
  trans _ _ _ hab hbc := le_trans hab hbc

/-- `APIKeyPool.get_next_key`: recover cooled-down rate-limited keys, return
`None` if no key is active, else the active key with the oldest
`last_used` (Python's sort is stable; so is insertion sort), stamping its
`last_used` with the current time. -/
def getNextKey (p : APIKeyPool) (now : ℚ) : Option String × APIKeyPool :=
  let scanned := scanKeys now p.keys p
  match scanned.2.insertionSort (lruRel scanned.1.keyLastUsed) with
  | [] => (none, scanned.1)
  | selected :: _ =>
    (some selected,
      { scanned.1 with keyLastUsed := fupd scanned.1.keyLastUsed selected now })

/-- `APIKeyPool.mark_key_rate_limited`. -/
def markKeyRateLimited (p : APIKeyPool) (k : String) (retryAfter : ℚ)
    (now : ℚ) : APIKeyPool :=
  { p with keyStatus := fupd p.keyStatus k .rateLimited,
           keyRateLimitedUntil := fupd p.keyRateLimitedUntil k (qAdd now retryAfter),
           keyErrorCount := fupd p.keyErrorCount k (p.keyErrorCount k + 1) }

/-- `APIKeyPool.mark_key_error`: increment the count; at 5 or more the key's
status becomes `error`. -/
def markKeyError (p : APIKeyPool) (k : String) : APIKeyPool :=
  let c := p.keyErrorCount k + 1
  let p1 := { p with keyErrorCount := fupd p.keyErrorCount k c }
  if 5 ≤ c then { p1 with keyStatus := fupd p1.keyStatus k .error } else p1

/-- `APIKeyPool.mark_key_success`. -/
def markKeySuccess (p : APIKeyPool) (k : String) : APIKeyPool :=
  let p1 := { p with keyErrorCount := fupd p.keyErrorCount k 0 }
  if p1.keyStatus k ≠ .exhausted then
    { p1 with keyStatus := fupd p1.keyStatus k .active }
  else p1

/-- `whisper_service.rate_limited_client.APIKeyInfo`. -/
structure APIKeyInfo where
  key : String
  status : APIKeyStatus
  lastUsed : Option ℚ
  rateLimitUntil : Option ℚ
  errorCount : Nat
deriving DecidableEq, Repr

/-- `APIKeyInfo.is_available`, which also performs in-place recovery of a
cooled-down rate-limited key (without touching its error count). -/
def APIKeyInfo.isAvailableStep (info : APIKeyInfo) (now : ℚ) :
    Bool × APIKeyInfo :=
  if info.status = .active then (true, info)
  else if info.status = .rateLimited then
    match info.rateLimitUntil with
    | some until_ =>
      if until_ < now then
        (true, { info with status := .active, rateLimitUntil := none })
      else (false, info)
    | none => (false, info)
  else (false, info)

/-- `APIKeyInfo.mark_rate_limited`. -/
def APIKeyInfo.markRateLimited (info : APIKeyInfo) (retryAfter : ℚ)
    (now : ℚ) : APIKeyInfo :=
  { info with status := .rateLimited, rateLimitUntil := some (qAdd now retryAfter) }

/-- `APIKeyInfo.mark_error`: increment the count; at 3 or more the key's
status becomes `error`. -/
def APIKeyInfo.markError (info : APIKeyInfo) : APIKeyInfo :=
  let c := info.errorCount + 1
  if 3 ≤ c then { info with errorCount := c, status := .error }
  else { info with errorCount := c }

/-- The whisper client's key state: the `APIKeyInfo` list plus the round-robin
cursor. -/
structure WhisperKeyPool where
  apiKeys : List APIKeyInfo
  currentKeyIndex : Nat
deriving DecidableEq, Repr

/-- The `for _ in range(len(self.api_keys))` loop of
`RateLimitedWhisperClient._get_next_available_key`, with the remaining
iteration count as fuel. -/
def wScan (now : ℚ) : Nat → WhisperKeyPool → Option APIKeyInfo × WhisperKeyPool
  | 0, p => (none, p)
  | fuel + 1, p =>
    match p.apiKeys.get? p.currentKeyIndex with
    | none => (none, p)
    | some info =>
      let nextIndex := (p.currentKeyIndex + 1) % p.apiKeys.length
      let (avail, info') := info.isAvailableStep now
      let p' : WhisperKeyPool :=
        { apiKeys := p.apiKeys.set p.currentKeyIndex info',
          currentKeyIndex := nextIndex }
      if avail then (some info', p') else wScan now fuel p'

/-- `RateLimitedWhisperClient._get_next_available_key`: try each key once,
round-robin from the cursor, returning the first available one. -/
def getNextAvailableKey (p : WhisperKeyPool) (now : ℚ) :
    Option APIKeyInfo × WhisperKeyPool :=
  if p.apiKeys.isEmpty then (none, p)
  else wScan now p.apiKeys.length p

/-! ## Concurrency limiter (`whisper_service.rate_limited_client.ConcurrentRequestLimiter`) -/

/-- `ConcurrentRequestLimiter.acquire` (under its lock): refuse without
incrementing when the counter has reached `max_concurrent`. -/
def limiterAcquire (maxConcurrent : Nat) (currentRequests : Int) :
    Bool × Int :=
  if (maxConcurrent : Int) ≤ currentRequests then (false, currentRequests)
  else (true, currentRequests + 1)

/-- `ConcurrentRequestLimiter.release` (under its lock):
`max(0, current_requests - 1)`. -/
def limiterRelease (currentRequests : Int) : Int :=
  max 0 (currentRequests - 1)

/-- A history of limiter operations, as interleaved by the event loop (the
lock serialises the bodies). -/
inductive LimiterOp where
  | acquire
  | release
deriving DecidableEq, Repr

/-- Run a sequence of limiter operations from a starting counter value. -/
def runLimiter (maxConcurrent : Nat) : List LimiterOp → Int → Int
  | [], c => c
  | .acquire :: ops, c => runLimiter maxConcurrent ops (limiterAcquire maxConcurrent c).2
  | .release :: ops, c => runLimiter maxConcurrent ops (limiterRelease c)

/-! ## Budget limits (`llm_service.db.check_budget_limits`) -/

/-- The reason strings of `check_budget_limits` results, abstracted (claims do
not depend on the message text). -/
inductive BudgetReason where
  | disabled
  | notInitialized
  | exceedHourly
  | exceedDaily
  | withinLimits
  | checkFailed
deriving DecidableEq, Repr

/-- The dictionary `check_budget_limits` returns. -/
structure BudgetCheckResult where
  allowed : Bool
  reason : BudgetReason
  currentHourlyCost : ℚ
  currentDailyCost : ℚ
  hourlyLimit : ℚ
  dailyLimit : ℚ
deriving DecidableEq, Repr

/-- A call to `check_budget_limits` either returns its dictionary, raises
`BudgetExceededError` (strict mode), or lets the `DatabaseError` raised by
`get_db_connection` propagate. -/
inductive BudgetOutcome where
  | result (r : BudgetCheckResult)
  | budgetExceeded (reason : BudgetReason)
  | databaseError
deriving DecidableEq, Repr

/-- The storage interaction of one `check_budget_limits` call:
`connectFail` — `psycopg2.connect` fails, so `get_db_connection` raises
`DatabaseError`; `queryFail` — a `psycopg2.Error` inside the cursor block;
`ok` — the table-exists flag and the two cost sums the queries return. -/
inductive BudgetDbState where
  | connectFail
  | queryFail
  | ok (tableExists : Bool) (hourlyCost dailyCost : ℚ)
deriving DecidableEq, Repr

/-- `llm_service.db.check_budget_limits`, parameterised by the three
environment settings (`LLM_HOURLY_COST_LIMIT`, `LLM_DAILY_COST_LIMIT`,
`LLM_BUDGET_STRICT_MODE`) and the storage interaction.  Note the order of the
source: the disabled-limits early return precedes the connection, the
connection (`with get_db_connection()`) precedes the `try` that catches
`psycopg2.Error`. -/
def check_budget_limits (hourlyLimit dailyLimit : ℚ) (strictMode : Bool)
    (estimatedCost : ℚ) (db : BudgetDbState) : BudgetOutcome :=
  if hourlyLimit = 0 ∧ dailyLimit = 0 then
    .result ⟨true, .disabled, 0, 0, hourlyLimit, dailyLimit⟩
  else
    match db with
    | .connectFail => .databaseError
    | .queryFail => .result ⟨true, .checkFailed, 0, 0, hourlyLimit, dailyLimit⟩
    | .ok tableExists hourlyCost dailyCost =>
      if !tableExists then
        .result ⟨true, .notInitialized, 0, 0, hourlyLimit, dailyLimit⟩
      else if 0 < hourlyLimit ∧ hourlyLimit < qAdd hourlyCost estimatedCost then
        if strictMode then .budgetExceeded .exceedHourly
        else .result ⟨false, .exceedHourly, hourlyCost, dailyCost,
          hourlyLimit, dailyLimit⟩
      else if 0 < dailyLimit ∧ dailyLimit < qAdd dailyCost estimatedCost then
        if strictMode then .budgetExceeded .exceedDaily
        else .result ⟨false, .exceedDaily, hourlyCost, dailyCost,
          hourlyLimit, dailyLimit⟩
      else
        .result ⟨true, .withinLimits, hourlyCost, dailyCost,
          hourlyLimit, dailyLimit⟩

/-- The `allowed` field of a returned dictionary, `none` when the call raised. -/
def BudgetOutcome.resultAllowed : BudgetOutcome → Option Bool
  | .result r => some r.allowed
  | _ => none

/-! ## Transcription merge (`whisper_service.transcription.TranscriptionService`) -/

/-- `TranscriptionSegment` (pydantic model); the source field `end` is a Lean
keyword and is called `stop` here. -/
structure TranscriptionSegment where
  start : ℚ
  stop : ℚ
  text : String
deriving DecidableEq, Repr

/-- `TranscriptionResult` (pydantic model). -/
structure TranscriptionResult where
  text : String
  segments : List TranscriptionSegment
  language : Option String
  durationSeconds : ℚ
  billingUsd : ℚ
  backend : String
deriving DecidableEq, Repr

/-- The order used by `all_segments.sort(key=lambda s: s.start)`. -/
def segRel (a b : TranscriptionSegment) : Prop :=
  a.start ≤ b.start

instance : DecidableRel segRel := fun a b => by unfold segRel; exact inferInstance

instance : IsTotal TranscriptionSegment segRel where
  total a b := le_total a.start b.start

instance : IsTrans TranscriptionSegment segRel where
  trans _ _ _ hab hbc := le_trans hab hbc

/-- `TranscriptionService.merge_chunks` on `(result, start_offset)` pairs;
`none` models the `ValueError` raised on an empty list.  The merged duration
is the running `max(total_duration, offset + result.duration_seconds)`;
segments are shifted by their chunk's offset and sorted by `start` (Python's
stable sort, modelled by insertion sort). -/
def mergeChunks (chunkResults : List (TranscriptionResult × ℚ)) :
    Option TranscriptionResult :=
  match chunkResults with
  | [] => none
  | (first, _) :: _ =>
    let textParts := chunkResults.map (fun rc => rc.1.text.trim)
    let totalCost := chunkResults.foldl (fun acc rc => qAdd acc rc.1.billingUsd) 0
    let totalDuration := chunkResults.foldl
      (fun acc rc => max acc (qAdd rc.2 rc.1.durationSeconds)) 0
    let allSegments := chunkResults.flatMap (fun rc =>
      rc.1.segments.map (fun s =>
        { start := qAdd s.start rc.2, stop := qAdd s.stop rc.2, text := s.text }))
    some
      { text := String.intercalate " " textParts,
        segments := allSegments.insertionSort segRel,
        language := first.language,
        durationSeconds := totalDuration,
        billingUsd := totalCost,
        backend := "api" }

/-- The chunk layout produced by the audio chunker: each chunk's offset is the
running end time of its predecessors, starting from `t`. -/
def consecutiveFrom (t : ℚ) : List (TranscriptionResult × ℚ) → Prop
  | [] => True
  | rc :: rest => rc.2 = t ∧ consecutiveFrom (t + rc.1.durationSeconds) rest

/-! ## Content preflight (`llm_service.content_preflight.ContentPreflightService`) -/

/-- `ContentPreflightService._estimate_tokens`: the average of the
character-based (`len/4`) and word-based (`words × 0.75`) estimates, via
`int(...)`, plus 1.  (All intermediate floats here are exact: quarters of
integers.) -/
def estimateTokens (text : PyStr) : Int :=
  let charEstimate : ℚ := qDiv (text.length : ℚ) 4
  let wordEstimate : ℚ := qMul ((pyWords text).length : ℚ) (qDiv 3 4)
  pyInt (qDiv (qAdd charEstimate wordEstimate) 2) + 1

/-- `ContentPreflightService.truncate_to_limit`. -/
def truncateToLimit (text : PyStr) (maxTokens : Int) : PyStr × Bool :=
  let estimatedTokens := estimateTokens text
  if estimatedTokens ≤ maxTokens then (text, false)
  else
    let ratio : ℚ := qDiv (maxTokens : ℚ) (estimatedTokens : ℚ)
    let targetChars : Int := pyInt (qMul (qMul (text.length : ℚ) ratio) (qDiv 95 100))
    let truncated := text.take targetChars.toNat
    let lastPeriod := pyRfind truncated '.'
    let lastNewline := pyRfind truncated '\n'
    if qMul (targetChars : ℚ) (qDiv 8 10) < (lastPeriod : ℚ) then
      (truncated.take (lastPeriod + 1).toNat, true)
    else if qMul (targetChars : ℚ) (qDiv 8 10) < (lastNewline : ℚ) then
      (truncated.take lastNewline.toNat, true)
    else (truncated, true)

/-! ## Concrete fixtures used by the witnesses and counterexamples -/

/-- A store with no rate-limiting keys set. -/
def emptyStore : Store :=
  { sw := fun _ => [], tbTokens := fun _ => none, tbLast := fun _ => none }

/-- A sliding-window service with two limits over the same window key: 1
request per 10 s and 1 request per 1 s (limits are checked in list order). -/
def svc2Cfg : RateLimitConfig :=
  { service := "svc2", algorithm := .slidingWindow,
    limits := [{ requests := some 1, window := some 10 },
               { requests := some 1, window := some 1 }] }

def svc2Cfgs : String → Option RateLimitConfig :=
  fun s => if s = "svc2" then some svc2Cfg else none

/-- `svc2`'s window already holds one entry recorded at `t = 1000 ms`. -/
def svc2Store : Store :=
  { emptyStore with
    sw := fupd emptyStore.sw (swKey "svc2" "default") [("default:1000", 1000)] }

/-- The default `whisper` config: sliding window, 50 requests per 60 s. -/
def whisperCfg : RateLimitConfig :=
  { service := "whisper", algorithm := .slidingWindow,
    limits := [{ requests := some 50, window := some 60 }] }

def whisperCfgs : String → Option RateLimitConfig :=
  fun s => if s = "whisper" then some whisperCfg else none

/-- `whisper`'s window already holds one entry recorded at `t = 500 ms`. -/
def whisperStore : Store :=
  { emptyStore with
    sw := fupd emptyStore.sw (swKey "whisper" "default") [("a", 500)] }

/-- An `openai` request config: sliding window, 10 requests per 60 s. -/
def openaiCfg : RateLimitConfig :=
  { service := "openai", algorithm := .slidingWindow,
    limits := [{ requests := some 10, window := some 60 }] }

/-- An `openai_tokens` config: token bucket, capacity 100, refill 1/s. -/
def openaiTokensCfg : RateLimitConfig :=
  { service := "openai_tokens", algorithm := .tokenBucket,
    limits := [{ capacity := some 100, refillRate := some 1 }] }

/-- Configs for the dual-limit check, as a `rate-limits.yaml` provides them. -/
def dualCfgs : String → Option RateLimitConfig :=
  fun s =>
    if s = "openai" then some openaiCfg
    else if s = "openai_tokens" then some openaiTokensCfg
    else none

/-- A store whose `openai_tokens` bucket key holds 50 tokens. -/
def tbStore : Store :=
  { emptyStore with
    tbTokens := fupd emptyStore.tbTokens (tbTokensKey "openai_tokens" "default") (some 50) }

/-- Two active whisper keys; `k0` is the least recently used, the cursor
points at `k1`. -/
def wKey0 : APIKeyInfo :=
  { key := "k0", status := .active, lastUsed := some 0,
    rateLimitUntil := none, errorCount := 0 }

def wKey1 : APIKeyInfo :=
  { key := "k1", status := .active, lastUsed := some 100,
    rateLimitUntil := none, errorCount := 0 }

def wPool : WhisperKeyPool :=
  { apiKeys := [wKey0, wKey1], currentKeyIndex := 1 }

/-- A fresh whisper API key. -/
def wFreshKey : APIKeyInfo :=
  { key := "kf", status := .active, lastUsed := none,
    rateLimitUntil := none, errorCount := 0 }

/-- Two 10-second chunk results whose offsets are both 0 and whose segments
coincide. -/
def chunkRes1 : TranscriptionResult :=
  { text := "one", segments := [{ start := 0, stop := 10, text := "s1" }],
    language := some "en", durationSeconds := 10, billingUsd := 1,
    backend := "api" }

def chunkRes2 : TranscriptionResult :=
  { text := "two", segments := [{ start := 0, stop := 10, text := "s2" }],
    language := some "en", durationSeconds := 10, billingUsd := 1,
    backend := "api" }

/-- Five one-letter words followed by one 20-character word. -/
def preflightText : PyStr :=
  ("a a a a a ".toList) ++ List.replicate 20 'x'

/-- An LLM pool with a cooled-down rate-limited key `a` (the LRU one) and an
active key `b`. -/
def lPool : APIKeyPool :=
  { keys := ["a", "b"],
    keyStatus := fun k => if k = "a" then .rateLimited else .active,
    keyLastUsed := fun k => if k = "a" then 0 else 50,
    keyErrorCount := fun k => if k = "a" then 2 else 0,
    keyRateLimitedUntil := fun k => if k = "a" then 100 else 0 }

/-- An LLM pool whose only key is in `error` state. -/
def lPoolE : APIKeyPool :=
  { keys := ["a"],
    keyStatus := fun _ => .error,
    keyLastUsed := fun _ => 0,
    keyErrorCount := fun _ => 5,
    keyRateLimitedUntil := fun _ => 0 }

/-! ## Bridge lemmas: the kernel-computable rational operations agree with the
field operations of `ℚ`. -/

theorem mul_den_cast (a : ℚ) : a * (a.den : ℚ) = (a.num : ℚ) := by
  have ha : ((a.den : ℚ)) ≠ 0 := by exact_mod_cast a.den_ne_zero
  nth_rewrite 1 [← Rat.num_div_den a]
  exact div_mul_cancel₀ _ ha

theorem qAdd_eq (a b : ℚ) : qAdd a b = a + b := by
  have ha : ((a.den : ℚ)) ≠ 0 := by exact_mod_cast a.den_ne_zero
  have hb : ((b.den : ℚ)) ≠ 0 := by exact_mod_cast b.den_ne_zero
  unfold qAdd
  rw [Rat.mkRat_eq_div]
  push_cast
  rw [div_eq_iff (mul_ne_zero ha hb), ← mul_den_cast a, ← mul_den_cast b]
  ring

theorem qMul_eq (a b : ℚ) : qMul a b = a * b := by
  have ha : ((a.den : ℚ)) ≠ 0 := by exact_mod_cast a.den_ne_zero
  have hb : ((b.den : ℚ)) ≠ 0 := by exact_mod_cast b.den_ne_zero
  unfold qMul
  rw [Rat.mkRat_eq_div]
  push_cast
  rw [div_eq_iff (mul_ne_zero ha hb), ← mul_den_cast a, ← mul_den_cast b]
  ring

theorem qDiv_eq (a b : ℚ) : qDiv a b = a / b := by
  rcases eq_or_ne b 0 with rfl | hb0
  · simp [qDiv, mkRat]
  · have ha : ((a.den : ℚ)) ≠ 0 := by exact_mod_cast a.den_ne_zero
    have hbn : b.num ≠ 0 := Rat.num_ne_zero.mpr hb0
    have hbnq : ((b.num : ℚ)) ≠ 0 := by exact_mod_cast hbn
    have hmain : ((a.num : ℚ) * b.den) / ((a.den : ℚ) * b.num) = a / b := by
      rw [div_eq_div_iff (mul_ne_zero ha hbnq) hb0, ← mul_den_cast a, ← mul_den_cast b]
      ring
    unfold qDiv
    rcases lt_or_le b.num 0 with h | h
    · have hle : ((a.den : ℤ)) * b.num ≤ 0 :=
        mul_nonpos_of_nonneg_of_nonpos (by exact_mod_cast Nat.zero_le a.den)
          (le_of_lt h)
      rw [if_neg (not_le.mpr h), Rat.mkRat_eq_div]
      have hcast : (((a.den * b.num).natAbs : ℚ)) = -((a.den : ℚ) * (b.num : ℚ)) := by
        rw [← Int.cast_natCast (R := ℚ), Int.ofNat_natAbs_of_nonpos hle]
        push_cast
        ring
      rw [hcast]
      push_cast
      rw [neg_div_neg_eq]
      exact hmain
    · have hle : 0 ≤ ((a.den : ℤ)) * b.num :=
        mul_nonneg (by exact_mod_cast Nat.zero_le a.den) h
      rw [if_pos h, Rat.mkRat_eq_div]
      have hcast : (((a.den * b.num).natAbs : ℚ)) = ((a.den : ℚ) * (b.num : ℚ)) := by
        rw [← Int.cast_natCast (R := ℚ), Int.natAbs_of_nonneg hle]
        push_cast
        ring
      rw [hcast]
      push_cast
      exact hmain

theorem qSub_eq (a b : ℚ) : qSub a b = a - b := by
  rw [qSub, qAdd_eq, sub_eq_add_neg]

theorem qAbs_eq (a : ℚ) : qAbs a = |a| := by
  unfold qAbs
  rcases lt_or_le a.num 0 with h | h
  · rw [if_pos h, abs_of_neg]
    exact lt_of_not_ge fun hge => absurd (Rat.num_nonneg.mpr hge) (not_le.mpr h)
  · rw [if_neg (not_lt.mpr h), abs_of_nonneg (Rat.num_nonneg.mp h)]

theorem qFloor_eq (q : ℚ) : qFloor q = ⌊q⌋ := by
  rw [qFloor, Int.fdiv_eq_ediv _ (by exact_mod_cast Nat.zero_le q.den), Rat.floor_def]

theorem qCeil_eq (q : ℚ) : qCeil q = ⌈q⌉ := by
  have h : (⌈q⌉ : ℤ) = -⌊-q⌋ := by
    have := Int.ceil_neg (α := ℚ) (a := -q)
    simpa using this
  rw [qCeil, h, Rat.floor_def]
  congr 1
  rw [Int.fdiv_eq_ediv _ (by exact_mod_cast Nat.zero_le q.den)]
  simp

theorem pyInt_eq_floor {q : ℚ} (h : 0 ≤ q) : pyInt q = ⌊q⌋ := by
  rw [pyInt, Int.tdiv_eq_ediv (Rat.num_nonneg.mpr h)
    (by exact_mod_cast Nat.zero_le q.den), Rat.floor_def]

/-! ## C10 — concurrency limiter invariant -/

/-- Any history of (lock-serialised) acquire/release operations keeps the
counter within `[0, max]` as long as it starts there. -/
theorem runLimiter_bounds (m : Nat) :
    ∀ (ops : List LimiterOp) (c : Int), 0 ≤ c → c ≤ m →
      0 ≤ runLimiter m ops c ∧ runLimiter m ops c ≤ m := by
  intro ops
  induction ops with
  | nil => exact fun c h0 h1 => ⟨h0, h1⟩
  | cons op rest ih =>
    intro c h0 h1
    cases op with
    | acquire =>
      show 0 ≤ runLimiter m rest (limiterAcquire m c).2
        ∧ runLimiter m rest (limiterAcquire m c).2 ≤ m
      unfold limiterAcquire
      split
      · exact ih c h0 h1
      · next h => exact ih (c + 1) (by omega) (by omega)
    | release =>
      show 0 ≤ runLimiter m rest (limiterRelease c)
        ∧ runLimiter m rest (limiterRelease c) ≤ m
      exact ih _ (le_max_left 0 _) (by
        unfold limiterRelease
        omega)

/-- Claim C10: the concurrency limiter keeps `0 ≤ current_requests ≤
max_concurrent` along every operation history started at `0`; `acquire` at
capacity refuses without incrementing, and `release` never drops the counter
below zero. -/
theorem concurrency_limiter_invariant (maxConcurrent : Nat) (ops : List LimiterOp) :
    (0 ≤ runLimiter maxConcurrent ops 0
      ∧ runLimiter maxConcurrent ops 0 ≤ maxConcurrent)
    ∧ (∀ c : Int, (maxConcurrent : Int) ≤ c →
        limiterAcquire maxConcurrent c = (false, c))
    ∧ (∀ c : Int, 0 ≤ limiterRelease c) := by
  refine ⟨runLimiter_bounds maxConcurrent ops 0 le_rfl (by exact_mod_cast Nat.zero_le maxConcurrent), ?_, ?_⟩
  · intro c h
    unfold limiterAcquire
    rw [if_pos h]
  · intro c
    exact le_max_left 0 _

/-- Witness for C10 at `max_concurrent = 5` and a concrete history. -/
theorem concurrency_limiter_invariant_witness :
    (0 ≤ runLimiter 5 [.acquire, .acquire, .release] 0
      ∧ runLimiter 5 [.acquire, .acquire, .release] 0 ≤ 5)
    ∧ limiterAcquire 5 7 = (false, 7) ∧ 0 ≤ limiterRelease 0 := by
  obtain ⟨h1, h2, h3⟩ := concurrency_limiter_invariant 5 [.acquire, .acquire, .release]
  exact ⟨h1, h2 7 (by decide), h3 0⟩

/-! ## C4 — budget breach behaviour -/

/-- Claim C4 counterexample: with the hourly limit enabled (`$1`), strict mode
off, and an estimated cost (`$2`) that breaches it, `check_budget_limits`
returns `allowed = False` — not `allowed = True` with a warning as claimed. -/
theorem budget_nonstrict_refusal_counterexample :
    check_budget_limits 1 20 false 2 (.ok true 0 0)
      = .result ⟨false, .exceedHourly, 0, 0, 1, 20⟩
    ∧ (check_budget_limits 1 20 false 2 (.ok true 0 0)).resultAllowed = some false := by
  decide

/-- Claim C4 (amended): when the estimated cost would breach an enabled
(non-zero) hourly or daily limit, strict mode raises `BudgetExceededError`,
and non-strict mode returns the refusal dictionary with `allowed = False`
(the caller decides what to do with it). -/
theorem budget_breach_behaviour (hl dl est h d : ℚ) (strict : Bool)
    (hbr : (0 < hl ∧ hl < qAdd h est)
      ∨ (¬(0 < hl ∧ hl < qAdd h est) ∧ 0 < dl ∧ dl < qAdd d est)) :
    (strict = true →
      check_budget_limits hl dl strict est (.ok true h d)
        = .budgetExceeded
            (if 0 < hl ∧ hl < qAdd h est then .exceedHourly else .exceedDaily))
    ∧ (strict = false →
      (check_budget_limits hl dl strict est (.ok true h d)).resultAllowed
        = some false) := by
  have hnz : ¬(hl = 0 ∧ dl = 0) := by
    rintro ⟨hz1, hz2⟩
    rcases hbr with ⟨h1, _⟩ | ⟨_, h1, _⟩
    · rw [hz1] at h1
      exact lt_irrefl 0 h1
    · rw [hz2] at h1
      exact lt_irrefl 0 h1
  constructor <;> intro hs <;> subst hs
  · rcases hbr with hh | ⟨hnh, hdl⟩
    · simp only [check_budget_limits, if_neg hnz, Bool.not_true, Bool.false_eq_true,
        if_false, if_pos hh, if_true]
    · simp only [check_budget_limits, if_neg hnz, Bool.not_true, Bool.false_eq_true,
        if_false, if_neg hnh, if_pos hdl, if_true]
  · rcases hbr with hh | ⟨hnh, hdl⟩
    · simp only [check_budget_limits, if_neg hnz, Bool.not_true, Bool.false_eq_true,
        if_false, if_pos hh, BudgetOutcome.resultAllowed]
    · simp only [check_budget_limits, if_neg hnz, Bool.not_true, Bool.false_eq_true,
        if_false, if_neg hnh, if_pos hdl, BudgetOutcome.resultAllowed]

/-- Witness for the amended C4 at concrete limits and costs. -/
theorem budget_breach_behaviour_witness :
    check_budget_limits 1 20 true 2 (.ok true 0 0) = .budgetExceeded .exceedHourly
    ∧ (check_budget_limits 1 20 false 2 (.ok true 0 0)).resultAllowed = some false := by
  constructor
  · have h := (budget_breach_behaviour 1 20 2 0 0 true (Or.inl (by decide))).1 rfl
    rwa [if_pos (by decide)] at h
  · exact (budget_breach_behaviour 1 20 2 0 0 false (Or.inl (by decide))).2 rfl

/-! ## C5 — storage errors in the budget check -/

/-- Claim C5 counterexample: a storage error while establishing the database
connection makes `check_budget_limits` propagate `DatabaseError` to its
caller instead of returning `allowed = True`. -/
theorem budget_connect_error_propagates :
    check_budget_limits 1 20 false 1 .connectFail = .databaseError
    ∧ (check_budget_limits 1 20 false 1 .connectFail).resultAllowed = none := by
  decide

/-- Claim C5 (amended): storage errors raised by the budget queries after a
connection is obtained are logged and fail open (`allowed = True`), but a
connection failure raises `DatabaseError`, which propagates (whenever the
limits are not both disabled, in which case no storage is touched). -/
theorem budget_storage_error_behaviour (hl dl est : ℚ) (strict : Bool)
    (hnz : ¬(hl = 0 ∧ dl = 0)) :
    check_budget_limits hl dl strict est .queryFail
      = .result ⟨true, .checkFailed, 0, 0, hl, dl⟩
    ∧ check_budget_limits hl dl strict est .connectFail = .databaseError := by
  constructor <;> simp only [check_budget_limits, if_neg hnz]

/-- Witness for the amended C5 at concrete limits. -/
theorem budget_storage_error_behaviour_witness :
    check_budget_limits 1 20 false 1 .queryFail
      = .result ⟨true, .checkFailed, 0, 0, 1, 20⟩
    ∧ check_budget_limits 1 20 false 1 .connectFail = .databaseError :=
  budget_storage_error_behaviour 1 20 1 false (by decide)

/-! ## C9 — truncation idempotence -/

/-- Claim C9 counterexample: truncating five one-letter words followed by a
20-character word to a limit of 2 tokens returns `("a a a a ", True)`, and a
second call on that output truncates AGAIN (`was_truncated = True`), because
cutting away the long word raised the per-character token density. -/
theorem truncate_not_idempotent_counterexample :
    (0 : Int) < 2
    ∧ truncateToLimit preflightText 2 = (("a a a a ").toList, true)
    ∧ (truncateToLimit (("a a a a ").toList) 2).2 = true := by
  decide

/-- Claim C9 (amended): after a first truncation `(t, True)`, a second call
with the same limit returns `(t, False)` exactly when the truncated text's
estimated token count is within the limit; the estimate of a truncated output
can still exceed the limit, in which case the second call truncates again. -/
theorem truncate_second_call (text t : PyStr) (maxTokens : Int)
    (_hfirst : truncateToLimit text maxTokens = (t, true)) :
    truncateToLimit t maxTokens = (t, false) ↔ estimateTokens t ≤ maxTokens := by
  constructor
  · intro hsecond
    by_contra hgt
    simp only [truncateToLimit, if_neg hgt] at hsecond
    split at hsecond
    · exact Bool.true_eq_false.mp (congrArg Prod.snd hsecond)
    · split at hsecond
      · exact Bool.true_eq_false.mp (congrArg Prod.snd hsecond)
      · exact Bool.true_eq_false.mp (congrArg Prod.snd hsecond)
  · intro hle
    simp only [truncateToLimit, if_pos hle]

/-- Witness for the amended C9: a 100-character single word truncates to 36
characters, whose estimate is back within the limit, so the second call is the
identity. -/
theorem truncate_second_call_witness :
    truncateToLimit (List.replicate 100 'x') 5 = (List.replicate 36 'x', true)
    ∧ truncateToLimit (List.replicate 36 'x') 5 = (List.replicate 36 'x', false) := by
  refine ⟨by decide, ?_⟩
  exact (truncate_second_call (List.replicate 100 'x') (List.replicate 36 'x') 5
    (by decide)).mpr (by decide)

/-! ## C6 / C7 counterexamples on the whisper pool -/

/-- Claim C6 counterexample: with both keys active, `k0` least recently used
(`last_used = 0` vs `100`) and the round-robin cursor at index 1, the whisper
pool's next-available-key operation returns `k1`, not the oldest key, and
leaves both keys' `last_used` unchanged. -/
theorem whisper_next_key_counterexample :
    (getNextAvailableKey wPool 200).1 = some wKey1
    ∧ (getNextAvailableKey wPool 200).2.apiKeys = [wKey0, wKey1]
    ∧ wKey0.status = .active ∧ wKey1.status = .active
    ∧ wKey0.lastUsed = some 0 ∧ wKey1.lastUsed = some 100 := by
  decide

/-- Claim C7 counterexample: three `mark_error` calls on a fresh whisper API
key already set its status to `error` (`error_count = 3 < 5`); the whisper
pool's threshold is 3, not 5. -/
theorem whisper_error_threshold_counterexample :
    wFreshKey.errorCount = 0 ∧ wFreshKey.status = .active
    ∧ (wFreshKey.markError.markError.markError).errorCount = 3
    ∧ (wFreshKey.markError.markError.markError).status = .error := by
  decide

/-! ## LLM pool helper lemmas (for C6 and C7) -/

theorem recoverKey_keys (p : APIKeyPool) (now : ℚ) (k : String) :
    (recoverKey p now k).keys = p.keys := by
  unfold recoverKey
  split <;> rfl

theorem recoverKey_keyLastUsed (p : APIKeyPool) (now : ℚ) (k : String) :
    (recoverKey p now k).keyLastUsed = p.keyLastUsed := by
  unfold recoverKey
  split <;> rfl

theorem recoverKey_keyRateLimitedUntil (p : APIKeyPool) (now : ℚ) (k : String) :
    (recoverKey p now k).keyRateLimitedUntil = p.keyRateLimitedUntil := by
  unfold recoverKey
  split <;> rfl

theorem recoverKey_status_ne (p : APIKeyPool) (now : ℚ) (k x : String)
    (h : x ≠ k) : (recoverKey p now k).keyStatus x = p.keyStatus x := by
  unfold recoverKey
  split
  · simp [fupd, h]
  · rfl

theorem recoverKey_errorCount_ne (p : APIKeyPool) (now : ℚ) (k x : String)
    (h : x ≠ k) : (recoverKey p now k).keyErrorCount x = p.keyErrorCount x := by
  unfold recoverKey
  split
  · simp [fupd, h]
  · rfl

theorem recoverKey_of_ne_rateLimited (p : APIKeyPool) (now : ℚ) (k x : String)
    (h : p.keyStatus x ≠ .rateLimited) :
    (recoverKey p now k).keyStatus x = p.keyStatus x
    ∧ (recoverKey p now k).keyErrorCount x = p.keyErrorCount x := by
  by_cases hx : x = k
  · subst hx
    unfold recoverKey
    split
    · next hc => exact absurd hc.1 h
    · exact ⟨rfl, rfl⟩
  · exact ⟨recoverKey_status_ne p now k x hx, recoverKey_errorCount_ne p now k x hx⟩

theorem recoverKey_recovered (p : APIKeyPool) (now : ℚ) (k : String)
    (h1 : p.keyStatus k = .rateLimited) (h2 : p.keyRateLimitedUntil k < now) :
    (recoverKey p now k).keyStatus k = .active
    ∧ (recoverKey p now k).keyErrorCount k = 0 := by
  unfold recoverKey
  rw [if_pos ⟨h1, h2⟩]
  exact ⟨by simp [fupd], by simp [fupd]⟩

theorem scanKeys_fst_cons (now : ℚ) (k : String) (ks : List String)
    (p : APIKeyPool) :
    (scanKeys now (k :: ks) p).1 = (scanKeys now ks (recoverKey p now k)).1 := by
  simp only [scanKeys]
  split <;> rfl

theorem scanKeys_snd_cons (now : ℚ) (k : String) (ks : List String)
    (p : APIKeyPool) :
    (scanKeys now (k :: ks) p).2
      = if (recoverKey p now k).keyStatus k = .active
        then k :: (scanKeys now ks (recoverKey p now k)).2
        else (scanKeys now ks (recoverKey p now k)).2 := by
  simp only [scanKeys]
  split <;> rfl

theorem scanKeys_keyLastUsed (now : ℚ) :
    ∀ (ks : List String) (p : APIKeyPool),
      (scanKeys now ks p).1.keyLastUsed = p.keyLastUsed := by
  intro ks
  induction ks with
  | nil => intro p; rfl
  | cons k ks ih =>
    intro p
    rw [scanKeys_fst_cons, ih, recoverKey_keyLastUsed]

theorem scanKeys_of_ne_rateLimited (now : ℚ) :
    ∀ (ks : List String) (p : APIKeyPool) (x : String),
      p.keyStatus x ≠ .rateLimited →
      (scanKeys now ks p).1.keyStatus x = p.keyStatus x
      ∧ (scanKeys now ks p).1.keyErrorCount x = p.keyErrorCount x := by
  intro ks
  induction ks with
  | nil => intro p x _; exact ⟨rfl, rfl⟩
  | cons k ks ih =>
    intro p x h
    obtain ⟨hs, he⟩ := recoverKey_of_ne_rateLimited p now k x h
    have h' : (recoverKey p now k).keyStatus x ≠ .rateLimited := by rw [hs]; exact h
    obtain ⟨hs', he'⟩ := ih (recoverKey p now k) x h'
    rw [scanKeys_fst_cons]
    exact ⟨hs'.trans hs, he'.trans he⟩

theorem scanKeys_status_not_mem (now : ℚ) :
    ∀ (ks : List String) (p : APIKeyPool) (x : String), x ∉ ks →
      (scanKeys now ks p).1.keyStatus x = p.keyStatus x := by
  intro ks
  induction ks with
  | nil => intro p x _; rfl
  | cons k ks ih =>
    intro p x hx
    have hxk : x ≠ k := fun h => hx (h ▸ List.mem_cons_self k ks)
    have hxs : x ∉ ks := fun h => hx (List.mem_cons_of_mem k h)
    rw [scanKeys_fst_cons, ih _ x hxs, recoverKey_status_ne p now k x hxk]

theorem scanKeys_recover (now : ℚ) :
    ∀ (ks : List String) (p : APIKeyPool) (x : String), x ∈ ks →
      p.keyStatus x = .rateLimited → p.keyRateLimitedUntil x < now →
      (scanKeys now ks p).1.keyStatus x = .active
      ∧ (scanKeys now ks p).1.keyErrorCount x = 0 := by
  intro ks
  induction ks with
  | nil => intro p x hx; exact absurd hx (List.not_mem_nil x)
  | cons k ks ih =>
    intro p x hx h1 h2
    rw [scanKeys_fst_cons]
    by_cases hxk : x = k
    · subst hxk
      obtain ⟨hs, he⟩ := recoverKey_recovered p now x h1 h2
      have h' : (recoverKey p now x).keyStatus x ≠ .rateLimited := by
        rw [hs]
        exact fun h => APIKeyStatus.noConfusion h
      obtain ⟨hs', he'⟩ := scanKeys_of_ne_rateLimited now ks (recoverKey p now x) x h'
      exact ⟨hs'.trans hs, he'.trans he⟩
    · have hxs : x ∈ ks := (List.mem_cons.mp hx).resolve_left hxk
      have h1' : (recoverKey p now k).keyStatus x = .rateLimited :=
        (recoverKey_status_ne p now k x hxk).trans h1
      have h2' : (recoverKey p now k).keyRateLimitedUntil x < now := by
        rw [recoverKey_keyRateLimitedUntil]
        exact h2
      exact ih (recoverKey p now k) x hxs h1' h2'

theorem scanKeys_active_mem (now : ℚ) :
    ∀ (ks : List String) (p : APIKeyPool) (x : String),
      x ∈ (scanKeys now ks p).2
        ↔ x ∈ ks ∧ (scanKeys now ks p).1.keyStatus x = .active := by
  intro ks
  induction ks with
  | nil =>
    intro p x
    simp [scanKeys]
  | cons k ks ih =>
    intro p x
    rw [scanKeys_snd_cons, scanKeys_fst_cons]
    by_cases hxk : x = k
    · subst hxk
      constructor
      · intro hmem
        refine ⟨List.mem_cons_self x ks, ?_⟩
        split at hmem
        · next hact =>
          have hne : (recoverKey p now x).keyStatus x ≠ .rateLimited := by
            rw [hact]
            exact fun h => APIKeyStatus.noConfusion h
          exact ((scanKeys_of_ne_rateLimited now ks _ x hne).1).trans hact
        · exact ((ih _ x).mp hmem).2
      · rintro ⟨_, hact⟩
        split
        · exact List.mem_cons_self x _
        · next hnact =>
          by_cases hxs : x ∈ ks
          · exact (ih _ x).mpr ⟨hxs, hact⟩
          · exact absurd ((scanKeys_status_not_mem now ks _ x hxs).symm.trans hact) hnact
    · have hiff : x ∈ k :: ks ↔ x ∈ ks := by
        simp [List.mem_cons, hxk]
      rw [hiff]
      constructor
      · intro hmem
        have : x ∈ (scanKeys now ks (recoverKey p now k)).2 := by
          split at hmem
          · exact (List.mem_cons.mp hmem).resolve_left hxk
          · exact hmem
        exact (ih _ x).mp this
      · intro hx
        have : x ∈ (scanKeys now ks (recoverKey p now k)).2 := (ih _ x).mpr hx
        split
        · exact List.mem_cons_of_mem k this
        · exact this

theorem getNextKey_snd_keyStatus (p : APIKeyPool) (now : ℚ) :
    (getNextKey p now).2.keyStatus = (scanKeys now p.keys p).1.keyStatus := by
  simp only [getNextKey]
  split <;> rfl

theorem getNextKey_snd_keyErrorCount (p : APIKeyPool) (now : ℚ) :
    (getNextKey p now).2.keyErrorCount = (scanKeys now p.keys p).1.keyErrorCount := by
  simp only [getNextKey]
  split <;> rfl

theorem getNextKey_none_aux (p : APIKeyPool) (now : ℚ)
    (h : (getNextKey p now).1 = none) :
    ∀ k ∈ p.keys, (getNextKey p now).2.keyStatus k ≠ .active := by
  intro k hk hact
  rw [getNextKey_snd_keyStatus] at hact
  have hmem : k ∈ (scanKeys now p.keys p).2 :=
    (scanKeys_active_mem now p.keys p k).mpr ⟨hk, hact⟩
  rcases hsort : (scanKeys now p.keys p).2.insertionSort
      (lruRel (scanKeys now p.keys p).1.keyLastUsed) with _ | ⟨sel, rest⟩
  · have hperm := List.perm_insertionSort
      (lruRel (scanKeys now p.keys p).1.keyLastUsed) (scanKeys now p.keys p).2
    rw [hsort] at hperm
    rw [hperm.symm.eq_nil] at hmem
    exact List.not_mem_nil k hmem
  · simp [getNextKey, hsort] at h

theorem getNextKey_some_aux (p : APIKeyPool) (now : ℚ) (k : String)
    (h : (getNextKey p now).1 = some k) :
    k ∈ p.keys ∧ (getNextKey p now).2.keyStatus k = .active
    ∧ (getNextKey p now).2.keyLastUsed k = now
    ∧ ∀ k' ∈ p.keys, (getNextKey p now).2.keyStatus k' = .active →
        p.keyLastUsed k ≤ p.keyLastUsed k' := by
  rcases hsort : (scanKeys now p.keys p).2.insertionSort
      (lruRel (scanKeys now p.keys p).1.keyLastUsed) with _ | ⟨sel, rest⟩
  · simp [getNextKey, hsort] at h
  · simp only [getNextKey, hsort, Option.some.injEq] at h
    subst h
    have hmemsort : sel ∈ (scanKeys now p.keys p).2.insertionSort
        (lruRel (scanKeys now p.keys p).1.keyLastUsed) := by
      rw [hsort]
      exact List.mem_cons_self sel rest
    have hmem : sel ∈ (scanKeys now p.keys p).2 :=
      (List.perm_insertionSort _ _).mem_iff.mp hmemsort
    obtain ⟨hkeys, hact⟩ := (scanKeys_active_mem now p.keys p sel).mp hmem
    have hstat : (getNextKey p now).2.keyStatus = (scanKeys now p.keys p).1.keyStatus :=
      getNextKey_snd_keyStatus p now
    refine ⟨hkeys, by rw [hstat]; exact hact, ?_, ?_⟩
    · simp only [getNextKey, hsort]
      simp [fupd]
    · intro k' hk' hact'
      rw [hstat] at hact'
      have hmem' : k' ∈ (scanKeys now p.keys p).2 :=
        (scanKeys_active_mem now p.keys p k').mpr ⟨hk', hact'⟩
      have hmemsort' : k' ∈ (scanKeys now p.keys p).2.insertionSort
          (lruRel (scanKeys now p.keys p).1.keyLastUsed) :=
        (List.perm_insertionSort _ _).mem_iff.mpr hmem'
      have hsorted : List.Sorted (lruRel (scanKeys now p.keys p).1.keyLastUsed)
          (sel :: rest) := by
        rw [← hsort]
        exact List.sorted_insertionSort _ _
      have hrel : lruRel (scanKeys now p.keys p).1.keyLastUsed sel k' := by
        rw [hsort] at hmemsort'
        rcases List.mem_cons.mp hmemsort' with rfl | htail
        · exact le_refl _
        · exact List.rel_of_sorted_cons hsorted k' htail
      have hlu := scanKeys_keyLastUsed now p.keys p
      unfold lruRel at hrel
      rwa [hlu] at hrel

/-- Claim C6 (amended): the LLM pool's `get_next_key` satisfies the claim —
it recovers every rate-limited key whose cooldown elapsed (status active,
error count reset), returns `None` exactly when no key is active after
recovery, never returns a non-active key, and returns an active key with the
oldest pre-call `last_used` among the active keys, stamping its `last_used`
to now.  The whisper client's `_get_next_available_key` does not: it returns
the first available key in round-robin cursor order, without resetting error
counts on recovery or updating last-used (see the counterexample). -/
theorem get_next_key_amended :
    (∀ (p : APIKeyPool) (now : ℚ) (k : String), k ∈ p.keys →
      p.keyStatus k = .rateLimited → p.keyRateLimitedUntil k < now →
      (getNextKey p now).2.keyStatus k = .active
      ∧ (getNextKey p now).2.keyErrorCount k = 0)
    ∧ (∀ (p : APIKeyPool) (now : ℚ), (getNextKey p now).1 = none →
      ∀ k ∈ p.keys, (getNextKey p now).2.keyStatus k ≠ .active)
    ∧ (∀ (p : APIKeyPool) (now : ℚ) (k : String), (getNextKey p now).1 = some k →
      k ∈ p.keys ∧ (getNextKey p now).2.keyStatus k = .active
      ∧ (getNextKey p now).2.keyLastUsed k = now
      ∧ ∀ k' ∈ p.keys, (getNextKey p now).2.keyStatus k' = .active →
          p.keyLastUsed k ≤ p.keyLastUsed k') := by
  refine ⟨?_, getNextKey_none_aux, getNextKey_some_aux⟩
  intro p now k hk h1 h2
  rw [getNextKey_snd_keyStatus, getNextKey_snd_keyErrorCount]
  exact scanKeys_recover now p.keys p k hk h1 h2

/-- Witness for the amended C6 on concrete pools: key `a` recovers and is
selected as the LRU active key; a pool with only an `error` key yields `None`. -/
theorem get_next_key_amended_witness :
    ((getNextKey lPool 200).2.keyStatus "a" = .active
      ∧ (getNextKey lPool 200).2.keyErrorCount "a" = 0)
    ∧ (getNextKey lPoolE 5).2.keyStatus "a" ≠ .active
    ∧ lPool.keyLastUsed "a" ≤ lPool.keyLastUsed "b" := by
  obtain ⟨h1, h2, h3⟩ := get_next_key_amended
  refine ⟨h1 lPool 200 "a" (by decide) (by decide) (by decide), ?_, ?_⟩
  · exact h2 lPoolE 5 (by decide) "a" (by decide)
  · exact (h3 lPool 200 "a" (by decide)).2.2.2 "b" (by decide) (by decide)

/-- Claim C7 (amended): each mark-error operation increments the key's error
count; the LLM pool's key turns `error` exactly when the count reaches 5 (or
it already was `error`), but the whisper pool's key turns `error` already at
3; in both pools an `error` key is never selected or recovered until
externally cleared. -/
theorem mark_error_amended :
    (∀ (p : APIKeyPool) (k : String),
      (markKeyError p k).keyErrorCount k = p.keyErrorCount k + 1
      ∧ ((markKeyError p k).keyStatus k = .error
          ↔ 5 ≤ p.keyErrorCount k + 1 ∨ p.keyStatus k = .error))
    ∧ (∀ info : APIKeyInfo,
      info.markError.errorCount = info.errorCount + 1
      ∧ (info.markError.status = .error
          ↔ 3 ≤ info.errorCount + 1 ∨ info.status = .error))
    ∧ (∀ (p : APIKeyPool) (now : ℚ) (k : String), p.keyStatus k = .error →
      (getNextKey p now).2.keyStatus k = .error ∧ (getNextKey p now).1 ≠ some k)
    ∧ (∀ (info : APIKeyInfo) (now : ℚ), info.status = .error →
      info.isAvailableStep now = (false, info)) := by
  refine ⟨?_, ?_, ?_, ?_⟩
  · intro p k
    by_cases hc : 5 ≤ p.keyErrorCount k + 1
    · refine ⟨?_, ?_⟩ <;> simp [markKeyError, if_pos hc, fupd, hc]
    · refine ⟨?_, ?_⟩ <;> simp [markKeyError, if_neg hc, fupd, hc]
  · intro info
    by_cases hc : 3 ≤ info.errorCount + 1
    · refine ⟨?_, ?_⟩ <;> simp [APIKeyInfo.markError, if_pos hc, hc]
    · refine ⟨?_, ?_⟩ <;> simp [APIKeyInfo.markError, if_neg hc, hc]
  · intro p now k herr
    have hne : p.keyStatus k ≠ .rateLimited := by
      rw [herr]
      exact fun h => APIKeyStatus.noConfusion h
    have hpost : (getNextKey p now).2.keyStatus k = .error := by
      rw [getNextKey_snd_keyStatus]
      exact (scanKeys_of_ne_rateLimited now p.keys p k hne).1.trans herr
    refine ⟨hpost, fun hsel => ?_⟩
    have hact := (getNextKey_some_aux p now k hsel).2.1
    rw [hpost] at hact
    exact APIKeyStatus.noConfusion hact
  · intro info now herr
    unfold APIKeyInfo.isAvailableStep
    rw [if_neg (by rw [herr]; exact fun h => APIKeyStatus.noConfusion h),
      if_neg (by rw [herr]; exact fun h => APIKeyStatus.noConfusion h)]

/-- Witness for the amended C7 on concrete keys and pools. -/
theorem mark_error_amended_witness :
    ((markKeyError lPool "b").keyErrorCount "b" = lPool.keyErrorCount "b" + 1
      ∧ ((markKeyError lPool "b").keyStatus "b" = .error
          ↔ 5 ≤ lPool.keyErrorCount "b" + 1 ∨ lPool.keyStatus "b" = .error))
    ∧ ((getNextKey lPoolE 5).2.keyStatus "a" = .error
      ∧ (getNextKey lPoolE 5).1 ≠ some "a")
    ∧ (wFreshKey.markError.markError.markError).isAvailableStep 5
        = (false, wFreshKey.markError.markError.markError) := by
  obtain ⟨h1, _, h3, h4⟩ := mark_error_amended
  exact ⟨h1 lPool "b", h3 lPoolE 5 "a" (by decide),
    h4 (wFreshKey.markError.markError.markError) 5 (by decide)⟩

/-! ## C8 — chunk merging -/

/-- Claim C8 counterexample: two 10-second chunks, both with offset 0 and the
same `[0,10]` segment, merge to `duration_seconds = 10`, not the sum `20`, and
the merged segment list `[(0,10), (0,10)]` is overlapping. -/
theorem merge_chunks_counterexample :
    (mergeChunks [(chunkRes1, 0), (chunkRes2, 0)]).map
        TranscriptionResult.durationSeconds = some 10
    ∧ chunkRes1.durationSeconds + chunkRes2.durationSeconds = 20
    ∧ (10 : ℚ) ≠ 20
    ∧ (mergeChunks [(chunkRes1, 0), (chunkRes2, 0)]).map
        (fun m => m.segments.map (fun s => (s.start, s.stop)))
      = some [(0, 10), (0, 10)] := by
  refine ⟨by decide, ?_, by norm_num, by decide⟩
  show (10 : ℚ) + 10 = 20
  norm_num

/-- The merged duration fold evaluates to the total length when the chunk
offsets are laid out consecutively from `t` and durations are non-negative. -/
theorem foldl_max_consecutive :
    ∀ (chunks : List (TranscriptionResult × ℚ)) (t acc : ℚ),
      consecutiveFrom t chunks → (∀ rc ∈ chunks, 0 ≤ rc.1.durationSeconds) →
      acc ≤ t → chunks ≠ [] →
      chunks.foldl (fun a rc => max a (qAdd rc.2 rc.1.durationSeconds)) acc
        = t + (chunks.map (fun rc => rc.1.durationSeconds)).sum := by
  intro chunks
  induction chunks with
  | nil => intro t acc _ _ _ hne; exact absurd rfl hne
  | cons rc rest ih =>
    intro t acc hcons hnn hacc _
    obtain ⟨hoff, hrest⟩ := hcons
    have hd : 0 ≤ rc.1.durationSeconds := hnn rc (List.mem_cons_self _ _)
    have hstep : max acc (qAdd rc.2 rc.1.durationSeconds) = t + rc.1.durationSeconds := by
      rw [qAdd_eq, hoff]
      exact max_eq_right (by linarith)
    rcases eq_or_ne rest [] with rfl | hne
    · simp only [List.foldl_cons, List.foldl_nil, List.map_cons, List.map_nil,
        List.sum_cons, List.sum_nil, hstep]
      ring
    · have hrec := ih (t + rc.1.durationSeconds)
        (max acc (qAdd rc.2 rc.1.durationSeconds)) hrest
        (fun x hx => hnn x (List.mem_cons_of_mem _ hx)) (le_of_eq hstep) hne
      simp only [List.foldl_cons, List.map_cons, List.sum_cons]
      rw [hrec]
      ring

/-- Claim C8 (amended): for every non-empty chunk list, the merged segment
list is sorted non-decreasingly by `start` (it need not be non-overlapping),
and `duration_seconds` is the running maximum of `offset + duration`, which
equals the sum of the chunk durations whenever the offsets are laid out
consecutively (each chunk starting where the previous one ended) and the
durations are non-negative. -/
theorem merge_chunks_amended (chunks : List (TranscriptionResult × ℚ))
    (m : TranscriptionResult) (hm : mergeChunks chunks = some m) :
    List.Sorted segRel m.segments
    ∧ (consecutiveFrom 0 chunks → (∀ rc ∈ chunks, 0 ≤ rc.1.durationSeconds) →
        m.durationSeconds = (chunks.map (fun rc => rc.1.durationSeconds)).sum) := by
  rcases chunks with _ | ⟨⟨first, off⟩, rest⟩
  · exact Option.noConfusion hm
  · simp only [mergeChunks, Option.some.injEq] at hm
    constructor
    · rw [← hm]
      exact List.sorted_insertionSort segRel _
    · intro hcons hnn
      rw [← hm]
      show List.foldl (fun a rc => max a (qAdd rc.2 rc.1.durationSeconds)) 0
          ((first, off) :: rest) = _
      rw [foldl_max_consecutive ((first, off) :: rest) 0 0 hcons hnn le_rfl
        (List.cons_ne_nil _ _)]
      ring

/-- Witness for the amended C8: two consecutive 10-second chunks merge to the
20-second total with sorted segments. -/
theorem merge_chunks_amended_witness :
    ∃ m, mergeChunks [(chunkRes1, 0), (chunkRes2, 10)] = some m
      ∧ List.Sorted segRel m.segments
      ∧ m.durationSeconds
          = ([(chunkRes1, 0), (chunkRes2, 10)].map (fun rc => rc.1.durationSeconds)).sum := by
  rcases hm : mergeChunks [(chunkRes1, 0), (chunkRes2, 10)] with _ | m
  · exact absurd hm (by decide)
  · obtain ⟨hs, hd⟩ := merge_chunks_amended _ m hm
    refine ⟨m, rfl, hs, hd ?_ ?_⟩
    · show (0 : ℚ) = 0 ∧ (10 : ℚ) = 0 + chunkRes1.durationSeconds ∧ True
      refine ⟨rfl, ?_, trivial⟩
      show (10 : ℚ) = 0 + 10
      norm_num
    · intro rc hrc
      fin_cases hrc <;> norm_num [chunkRes1, chunkRes2]

/-! ## C3 — record_usage / rollback round trip -/

/-- Claim C3 counterexample: on a sliding-window service with one existing
entry, `record_usage` with cost `0.5 > 0` adds one entry, and `rollback` with
the same cost then removes EVERY entry (`int(abs(0.5)) - 1 = -1`, a
take-all Redis range), leaving the window empty instead of restoring it. -/
theorem record_rollback_counterexample :
    (0 : ℚ) < qDiv 1 2
    ∧ whisperStore.sw (swKey "whisper" "default") = [("a", 500)]
    ∧ ((record_usage whisperCfgs "whisper" "default" (qDiv 1 2) 1000 whisperStore).sw
        (swKey "whisper" "default")) = [("a", 500), ("default:1000", 1000)]
    ∧ ((rollback whisperCfgs "whisper" "default" (qDiv 1 2) 1000
        (record_usage whisperCfgs "whisper" "default" (qDiv 1 2) 1000 whisperStore)).sw
        (swKey "whisper" "default")) = [] := by
  decide

theorem zadd_of_not_mem (z : ZSet) (m : String) (s : Int)
    (h : ∀ e ∈ z, e.1 ≠ m) : zadd z m s = z ++ [(m, s)] := by
  unfold zadd
  rw [if_neg]
  intro hany
  obtain ⟨e, he, hm⟩ := List.any_eq_true.mp hany
  exact h e he (of_decide_eq_true hm)

theorem zrevList_head_max (z : ZSet) (m : String) (s : Int)
    (hs : ∀ e ∈ z, e.2 < s) :
    ∃ tail, zrevList (z ++ [(m, s)]) = (m, s) :: tail := by
  have hperm := List.perm_insertionSort zRevRel (z ++ [(m, s)])
  have hmem : (m, s) ∈ zrevList (z ++ [(m, s)]) :=
    hperm.mem_iff.mpr (List.mem_append_right _ (List.mem_singleton.mpr rfl))
  rcases hl : zrevList (z ++ [(m, s)]) with _ | ⟨h, t⟩
  · rw [hl] at hmem
    exact absurd hmem (List.not_mem_nil _)
  · refine ⟨t, ?_⟩
    rw [hl] at hmem
    have hsorted : List.Sorted zRevRel (h :: t) := by
      rw [← hl]
      exact List.sorted_insertionSort zRevRel _
    by_cases hhm : h = (m, s)
    · rw [hhm]
    · have hh : h ∈ z ++ [(m, s)] := by
        have : h ∈ zrevList (z ++ [(m, s)]) := by
          rw [hl]
          exact List.mem_cons_self h t
        exact hperm.mem_iff.mp this
      have hhz : h ∈ z := by
        rcases List.mem_append.mp hh with hz | hone
        · exact hz
        · exact absurd (List.mem_singleton.mp hone) hhm
      have hlt : h.2 < s := hs h hhz
      have hmt : (m, s) ∈ t := by
        rcases List.mem_cons.mp hmem with heq | ht
        · exact absurd heq.symm hhm
        · exact ht
      have hrel : zRevRel h (m, s) := List.rel_of_sorted_cons hsorted _ hmt
      rcases hrel with hr | ⟨hr, _⟩
      · exact absurd hlt (not_lt.mpr (le_of_lt hr))
      · exact absurd hr (ne_of_lt hlt)

theorem pyInt_of_one_le_lt_two {c : ℚ} (h1 : 1 ≤ c) (h2 : c < 2) : pyInt c = 1 := by
  rw [pyInt_eq_floor (le_trans zero_le_one h1)]
  refine Int.floor_eq_iff.mpr ⟨?_, ?_⟩
  · exact_mod_cast h1
  · push_cast
    linarith

/-- Claim C3 (amended): for token-bucket services, `record_usage` then
`rollback` with equal non-negative cost restores the tokens key to its prior
value (when the key exists).  For sliding-window services, `record_usage`
adds a single entry regardless of cost and `rollback` removes the
`int(cost)` most-recent entries (all of them when `cost < 1`), so the pair
is a no-op exactly in the benign case `1 ≤ cost < 2` with the recorded entry
strictly newer than (and distinct from) every existing one. -/
theorem record_usage_rollback_amended :
    (∀ (cfgs : String → Option RateLimitConfig) (service ident : String)
        (cost : ℚ) (tms : Int) (st : Store) (cfg : RateLimitConfig) (v : ℚ),
      cfgs service = some cfg → cfg.algorithm = .tokenBucket → 0 ≤ cost →
      st.tbTokens (tbTokensKey service ident) = some v →
      (rollback cfgs service ident cost tms
          (record_usage cfgs service ident cost tms st)).tbTokens
        (tbTokensKey service ident) = some v)
    ∧ (∀ (cfgs : String → Option RateLimitConfig) (service ident : String)
        (cost : ℚ) (tms : Int) (st : Store) (cfg : RateLimitConfig),
      cfgs service = some cfg → cfg.algorithm = .slidingWindow →
      1 ≤ cost → cost < 2 →
      (∀ e ∈ st.sw (swKey service ident), e.2 < tms) →
      (∀ e ∈ st.sw (swKey service ident), e.1 ≠ ident ++ ":" ++ toString tms) →
      (rollback cfgs service ident cost tms
          (record_usage cfgs service ident cost tms st)).sw
        (swKey service ident) = st.sw (swKey service ident)) := by
  constructor
  · intro cfgs service ident cost tms st cfg v hcfg halg hc hv
    simp only [record_usage, rollback, hcfg, halg, fupd, incrbyfloat,
      eq_self_iff_true, if_true, hv, Option.getD_some]
    congr 1
    rw [qAdd_eq, qAdd_eq, qAbs_eq, abs_of_nonneg hc, neg_neg]
    ring
  · intro cfgs service ident cost tms st cfg hcfg halg h1 h2 hscore hfresh
    have hc0 : (0 : ℚ) < cost := lt_of_lt_of_le zero_lt_one h1
    have hrec : (record_usage cfgs service ident cost tms st).sw (swKey service ident)
        = st.sw (swKey service ident) ++ [(ident ++ ":" ++ toString tms, tms)] := by
      simp only [record_usage, hcfg, halg, if_pos hc0, fupd, if_pos rfl]
      exact zadd_of_not_mem _ _ _ hfresh
    have hneg : ¬(0 : ℚ) < -(qAbs cost) := by
      rw [qAbs_eq, abs_of_nonneg (le_of_lt hc0)]
      linarith
    have habs : qAbs (-(qAbs cost)) = cost := by
      rw [qAbs_eq, qAbs_eq, abs_of_nonneg (le_of_lt hc0), abs_neg,
        abs_of_nonneg (le_of_lt hc0)]
    have hpy : pyInt (qAbs (-(qAbs cost))) - 1 = 0 := by
      rw [habs, pyInt_of_one_le_lt_two h1 h2]
      norm_num
    obtain ⟨tail, htail⟩ := zrevList_head_max (st.sw (swKey service ident))
      (ident ++ ":" ++ toString tms) tms hscore
    have hentries : zrevrange
        ((record_usage cfgs service ident cost tms st).sw (swKey service ident))
        0 (pyInt (qAbs (-(qAbs cost))) - 1) = [ident ++ ":" ++ toString tms] := by
      rw [hrec, hpy]
      unfold zrevrange
      rw [htail]
      simp
    have hzrem : zrem (st.sw (swKey service ident)
          ++ [(ident ++ ":" ++ toString tms, tms)]) [ident ++ ":" ++ toString tms]
        = st.sw (swKey service ident) := by
      unfold zrem
      rw [List.filter_append]
      have hl : (st.sw (swKey service ident)).filter
          (fun e => !([ident ++ ":" ++ toString tms].contains e.1)) =
          st.sw (swKey service ident) := by
        refine List.filter_eq_self.mpr (fun e he => ?_)
        simp only [List.contains_cons, List.contains_nil, Bool.or_false,
          Bool.not_eq_true']
        exact beq_eq_false_iff_ne.mpr (hfresh e he)
      have hr : ([(ident ++ ":" ++ toString tms, tms)]).filter
          (fun e => !([ident ++ ":" ++ toString tms].contains e.1)) = [] := by
        simp
      rw [hl, hr, List.append_nil]
    set st1 := record_usage cfgs service ident cost tms st with hst1
    simp only [rollback, record_usage, hcfg, halg, if_neg hneg, hentries]
    simp only [List.isEmpty_cons, Bool.false_eq_true, if_false, fupd,
      eq_self_iff_true, if_true]
    rw [hrec]
    exact hzrem

/-- Witness for the amended C3: a token bucket holding 50 tokens is restored
after record+rollback of cost 3; a sliding window with an old entry is
restored after record+rollback of cost 1.5. -/
theorem record_usage_rollback_amended_witness :
    (rollback dualCfgs "openai_tokens" "default" 3 0
        (record_usage dualCfgs "openai_tokens" "default" 3 0 tbStore)).tbTokens
      (tbTokensKey "openai_tokens" "default") = some 50
    ∧ (rollback whisperCfgs "whisper" "default" (qDiv 3 2) 1000
        (record_usage whisperCfgs "whisper" "default" (qDiv 3 2) 1000 whisperStore)).sw
      (swKey "whisper" "default") = whisperStore.sw (swKey "whisper" "default") := by
  obtain ⟨ha, hb⟩ := record_usage_rollback_amended
  constructor
  · exact ha dualCfgs "openai_tokens" "default" 3 0 tbStore openaiTokensCfg 50
      (by decide) (by decide) (by norm_num) (by decide)
  · exact hb whisperCfgs "whisper" "default" (qDiv 3 2) 1000 whisperStore whisperCfg
      (by decide) (by decide) (by decide) (by decide) (by decide) (by decide)

/-! ## C2 — check_limit denial behaviour -/

/-- Claim C2 counterexample: with two configured limits that would both deny
(standalone retry_afters 10 s and 1 s), `check_limit` raises `RateLimitError`
carrying `retry_after = 10` — the FIRST denying limit's value, not the
smallest (1) — and returns no `Result` at all. -/
theorem check_limit_counterexample :
    (check_limit svc2Cfgs false "svc2" "default" 1 1500 svc2Store).1
      = .rateLimited ⟨"svc2", 10, some 11⟩
    ∧ svc2Cfg.limits = [{ requests := some 1, window := some 10 },
        { requests := some 1, window := some 1 }]
    ∧ (checkSingleLimit "svc2" "default" svc2Cfg
        { requests := some 1, window := some 1 } 1 1500 svc2Store).1.allowed = false
    ∧ (checkSingleLimit "svc2" "default" svc2Cfg
        { requests := some 1, window := some 1 } 1 1500 svc2Store).1.retryAfter = 1
    ∧ (1 : Int) < 10 := by
  decide

theorem checkLimitLoop_append (service ident : String) (cfg : RateLimitConfig)
    (cost : ℚ) (tms : Int) :
    ∀ (pre : List RateLimitWindow) (st st1 : Store) (rest : List RateLimitWindow)
      (acc : Option RateLimitResult),
      passLimits service ident cfg cost tms pre st = some st1 →
      ∃ acc', checkLimitLoop service ident cfg cost tms (pre ++ rest) st acc
        = checkLimitLoop service ident cfg cost tms rest st1 acc' := by
  intro pre
  induction pre with
  | nil =>
    intro st st1 rest acc hpass
    obtain rfl : st = st1 := Option.some.inj hpass
    exact ⟨acc, rfl⟩
  | cons lc pre' ih =>
    intro st st1 rest acc hpass
    by_cases hal : (checkSingleLimit service ident cfg lc cost tms st).1.allowed = true
    · rw [show passLimits service ident cfg cost tms (lc :: pre') st
          = passLimits service ident cfg cost tms pre'
              (checkSingleLimit service ident cfg lc cost tms st).2 from by
        simp only [passLimits, if_pos hal]] at hpass
      obtain ⟨acc', hacc'⟩ := ih _ st1 rest
        (some (checkSingleLimit service ident cfg lc cost tms st).1) hpass
      refine ⟨acc', ?_⟩
      rw [show (lc :: pre') ++ rest = lc :: (pre' ++ rest) from rfl]
      rw [show checkLimitLoop service ident cfg cost tms (lc :: (pre' ++ rest)) st acc
          = checkLimitLoop service ident cfg cost tms (pre' ++ rest)
              (checkSingleLimit service ident cfg lc cost tms st).2
              (some (checkSingleLimit service ident cfg lc cost tms st).1) from by
        simp only [checkLimitLoop, if_pos hal]]
      exact hacc'
    · rw [show passLimits service ident cfg cost tms (lc :: pre') st = none from by
        simp only [passLimits, if_neg hal]] at hpass
      exact Option.noConfusion hpass

/-- Claim C2 (amended): `check_limit` checks the service's limits
sequentially and, at the first limit that denies (after the preceding limits
all allowed), raises `RateLimitError` carrying THAT limit's `retry_after` and
`reset_at` — later limits are not consulted, so the surfaced `retry_after`
need not be the smallest among all denying limits, and no `Result` with
`allowed=false` is ever returned. -/
theorem check_limit_first_denial (cfgs : String → Option RateLimitConfig)
    (service ident : String) (cost : ℚ) (tms : Int) (st : Store)
    (cfg : RateLimitConfig) (pre : List RateLimitWindow) (lc : RateLimitWindow)
    (rest : List RateLimitWindow) (st1 : Store)
    (hcfg : cfgs service = some cfg)
    (hlim : cfg.limits = pre ++ lc :: rest)
    (hpass : passLimits service ident cfg cost tms pre st = some st1)
    (hdeny : (checkSingleLimit service ident cfg lc cost tms st1).1.allowed = false) :
    (check_limit cfgs false service ident cost tms st).1
      = .rateLimited ⟨service,
          (checkSingleLimit service ident cfg lc cost tms st1).1.retryAfter,
          some (checkSingleLimit service ident cfg lc cost tms st1).1.resetAt⟩ := by
  have hstep : check_limit cfgs false service ident cost tms st
      = checkLimitLoop service ident cfg cost tms cfg.limits st none := by
    simp only [check_limit, hcfg, Bool.false_eq_true, if_false]
  obtain ⟨acc', hacc'⟩ := checkLimitLoop_append service ident cfg cost tms pre st st1
    (lc :: rest) none hpass
  rw [hstep, hlim, hacc']
  have hnal : ¬((checkSingleLimit service ident cfg lc cost tms st1).1.allowed = true) := by
    rw [hdeny]
    exact Bool.false_ne_true
  rw [show checkLimitLoop service ident cfg cost tms (lc :: rest) st1 acc'
      = (.rateLimited ⟨service,
          (checkSingleLimit service ident cfg lc cost tms st1).1.retryAfter,
          some (checkSingleLimit service ident cfg lc cost tms st1).1.resetAt⟩,
        (checkSingleLimit service ident cfg lc cost tms st1).2) from by
    simp only [checkLimitLoop, if_neg hnal]]

/-- Witness for the amended C2 at the two-limit fixture (the first limit
denies immediately, so `pre = []`). -/
theorem check_limit_first_denial_witness :
    (check_limit svc2Cfgs false "svc2" "default" 1 1500 svc2Store).1
      = .rateLimited ⟨"svc2",
          (checkSingleLimit "svc2" "default" svc2Cfg
            { requests := some 1, window := some 10 } 1 1500 svc2Store).1.retryAfter,
          some (checkSingleLimit "svc2" "default" svc2Cfg
            { requests := some 1, window := some 10 } 1 1500 svc2Store).1.resetAt⟩ :=
  check_limit_first_denial svc2Cfgs "svc2" "default" 1 1500 svc2Store svc2Cfg []
    { requests := some 1, window := some 10 }
    [{ requests := some 1, window := some 1 }] svc2Store
    (by decide) (by decide) rfl (by decide)

/-! ## C1 — dual-limit check and the missing rollback -/

/-- Any `Result` actually returned by `check_limit` has `allowed = true`:
denials are raised as `RateLimitError` inside `check_limit`, so the caller's
`if not result.allowed` compensation branch is unreachable. -/
theorem checkLimitLoop_ok_allowed (service ident : String) (cfg : RateLimitConfig)
    (cost : ℚ) (tms : Int) :
    ∀ (limits : List RateLimitWindow) (st : Store) (acc : Option RateLimitResult)
      (r : RateLimitResult),
      (∀ r0, acc = some r0 → r0.allowed = true) →
      (checkLimitLoop service ident cfg cost tms limits st acc).1 = .ok (some r) →
      r.allowed = true := by
  intro limits
  induction limits with
  | nil =>
    intro st acc r hacc h
    simp only [checkLimitLoop] at h
    exact hacc r (CheckOutcome.ok.inj h)
  | cons lc rest ih =>
    intro st acc r hacc h
    by_cases hal : (checkSingleLimit service ident cfg lc cost tms st).1.allowed = true
    · rw [show checkLimitLoop service ident cfg cost tms (lc :: rest) st acc
          = checkLimitLoop service ident cfg cost tms rest
              (checkSingleLimit service ident cfg lc cost tms st).2
              (some (checkSingleLimit service ident cfg lc cost tms st).1) from by
        simp only [checkLimitLoop, if_pos hal]] at h
      exact ih _ _ r (fun r0 hr0 => (Option.some.inj hr0) ▸ hal) h
    · rw [show (checkLimitLoop service ident cfg cost tms (lc :: rest) st acc).1
          = .rateLimited ⟨service,
              (checkSingleLimit service ident cfg lc cost tms st).1.retryAfter,
              some (checkSingleLimit service ident cfg lc cost tms st).1.resetAt⟩ from by
        simp only [checkLimitLoop, if_neg hal]] at h
      exact CheckOutcome.noConfusion h

/-- `check_limit` never returns a `Result` with `allowed = false`; the
compensation branch in `_check_dual_limits` that would roll the request cost
back is therefore dead code. -/
theorem check_limit_ok_allowed (cfgs : String → Option RateLimitConfig)
    (circuitOpen : Bool) (service ident : String) (cost : ℚ) (tms : Int)
    (st : Store) (r : RateLimitResult)
    (h : (check_limit cfgs circuitOpen service ident cost tms st).1 = .ok (some r)) :
    r.allowed = true := by
  unfold check_limit at h
  split at h
  · exact CheckOutcome.noConfusion h
  · split at h
    · next =>
      obtain rfl : mkRateLimitResult (tms / 1000) true 999 999 0 = r :=
        Option.some.inj (CheckOutcome.ok.inj h)
      rfl
    · next cfg _ =>
      exact checkLimitLoop_ok_allowed service ident cfg cost tms cfg.limits st none r
        (fun r0 hr0 => Option.noConfusion hr0) h

/-- Claim C1: at a state where the request-count check on `openai` passes
(consuming one request from the window) and the token check on
`openai_tokens` is refused, `_check_dual_limits` lets the `RateLimitError`
raised inside `check_limit` propagate — the `openai` request consumption is
NOT rolled back (the window still holds the consumed entry, where the claim
requires it restored to empty). -/
theorem dual_check_no_rollback :
    (checkDualLimits dualCfgs false "gpt-3.5-turbo" 200 "default" 60000 emptyStore).1
      = .rateLimitError ⟨"openai_tokens", 100, some 160⟩
    ∧ (checkDualLimits dualCfgs false "gpt-3.5-turbo" 200 "default" 60000 emptyStore).2.sw
        (swKey "openai" "default") = [("default:60000:0", 60000)]
    ∧ emptyStore.sw (swKey "openai" "default") = [] := by
  decide

end BookmarkAI
